import Mathlib

/-!
# Verification of the thurin-core SDK crypto/parsing/witness pipeline

Shallow embedding of the TypeScript sources in `sdk/src` (prover/prover.ts,
contract/index.ts, credential/parse.ts, credential/types.ts).

Modelling conventions:
* JavaScript `Uint8Array` values and UTF-8 strings are modelled as `List Nat`
  byte sequences (`Bytes`); `TextEncoder().encode` is the identity on this
  representation.
* External platform/library primitives that are not part of the repository
  (WebCrypto ECDH/HKDF/AES-GCM, `@aztec/bb.js` `poseidon2Hash`, `cborg`
  `decode`) are abstract parameters of the embedded functions, exactly where
  the source passes them in or imports them.
* `keccak256` (from `viem`) and `cborg` `encode` are deterministic published
  algorithms; they are implemented executably below so claims about them can
  be evaluated.
-/

namespace Thurin

/-- Byte sequences (JS `Uint8Array`), each entry intended to be `< 256`. -/
abbrev Bytes := List Nat

/-- Every entry is a byte value. -/
def isBytes (b : Bytes) : Bool := b.all (· < 256)

/-- UTF-8 bytes of an ASCII string literal (used for protocol constants). -/
def asciiBytes (s : String) : Bytes := s.data.map Char.toNat

/-- JS `arr.slice(start, start + len)` on byte arrays. -/
def slice (b : Bytes) (start len : Nat) : Bytes := (b.drop start).take len

/-- Lowercase hex digit character, as produced by JS `toString(16)` / viem. -/
def hexDigitChar (n : Nat) : Char :=
  Char.ofNat ((if n < 10 then 48 else 87) + n)

/-- Numeric value of a lowercase hex digit character. -/
def hexCharVal (c : Char) : Nat :=
  if 97 ≤ c.toNat then c.toNat - 87 else c.toNat - 48

/-- Big-endian fixed-width hex digits of a number (`padStart`-style). -/
def natToHexCore : Nat → Nat → List Char
  | 0, _ => []
  | k + 1, n => natToHexCore k (n / 16) ++ [hexDigitChar (n % 16)]

/-- JS `n.toString(16).padStart(k, '0')` for `n < 16 ^ k`. -/
def natToHex (k n : Nat) : String := ⟨natToHexCore k n⟩

/-- Fold hex digit characters back into a number. -/
def fromHexDigits (l : List Char) : Nat :=
  l.foldl (fun acc c => acc * 16 + hexCharVal c) 0

/-- Numeric value of a `0x…` hex string. -/
def hexStrToNat (s : String) : Nat := fromHexDigits (s.data.drop 2)

/-- Pair up hex digit characters into bytes (big-endian within each byte). -/
def pairUp : List Char → Bytes
  | a :: b :: rest => (16 * hexCharVal a + hexCharVal b) :: pairUp rest
  | _ => []

/-- viem `hexToBytes`: drop the `0x` and read byte pairs. -/
def hexToBytes (s : String) : Bytes := pairUp (s.data.drop 2)

/-- Hex digit characters of a byte sequence, two per byte. -/
def bytesToHexChars (b : Bytes) : List Char :=
  (b.map fun byte => [hexDigitChar (byte / 16 % 16), hexDigitChar (byte % 16)]).flatten

/-- viem `toHex` on a byte array: `0x` followed by two hex digits per byte. -/
def bytesToHex (b : Bytes) : String := ⟨'0' :: 'x' :: bytesToHexChars b⟩

/-- Big-endian base-256 digits of `n`, `k` bytes wide. -/
def natToBytesBE : Nat → Nat → Bytes
  | 0, _ => []
  | k + 1, n => natToBytesBE k (n / 256) ++ [n % 256]

/-- Big-endian byte fold (value of `0x`-hex bytes as a big integer). -/
def bytesToNatBE (b : Bytes) : Nat := b.foldl (fun acc byte => acc * 256 + byte) 0

/-!
## Keccak-256 (as used by viem's `keccak256`)

Executable Keccak-f[1600] over `Nat` lanes masked to 64 bits, with the
original Keccak `0x01` domain padding and rate 136, matching Ethereum's
`keccak256`.
-/

/-- 64-bit mask. -/
def mask64 : Nat := 18446744073709551615

/-- Rotate a 64-bit lane left by `n` bits. -/
def rol64 (x n : Nat) : Nat := (((x <<< n) ||| (x >>> (64 - n)))) &&& mask64

/-- Lane `i` of a 25-lane state (lanes ordered `x + 5 * y`). -/
def lane (s : List Nat) (i : Nat) : Nat := s.getD i 0

/-- Keccak round constants (decimal). -/
def keccakRC : List Nat :=
  [1, 32898, 9223372036854808714,
   9223372039002292224, 32907, 2147483649,
   9223372039002292353, 9223372036854808585, 138,
   136, 2147516425, 2147483658,
   2147516555, 9223372036854775947, 9223372036854808713,
   9223372036854808579, 9223372036854808578, 9223372036854775936,
   32778, 9223372039002259466, 9223372039002292353,
   9223372036854808704, 2147483649, 9223372039002292232]

/-- Rho rotation amounts indexed by the DESTINATION lane of the pi
permutation (lane `j` of the permuted state receives the source lane
rotated by `rhoByDest[j]`). -/
def rhoByDest : List Nat :=
  [0, 44, 43, 21, 14,
   28, 20, 3, 45, 61,
   1, 6, 25, 8, 18,
   27, 36, 10, 15, 56,
   62, 55, 39, 41, 2]

/-- Theta step of Keccak-f. -/
def theta (s : List Nat) : List Nat :=
  let c := (List.range 5).map fun x =>
    lane s x ^^^ lane s (x + 5) ^^^ lane s (x + 10) ^^^ lane s (x + 15) ^^^ lane s (x + 20)
  let d := (List.range 5).map fun x =>
    lane c ((x + 4) % 5) ^^^ rol64 (lane c ((x + 1) % 5)) 1
  (List.range 25).map fun i => lane s i ^^^ lane d (i % 5)

/-- Combined rho rotations and pi lane permutation. -/
def rhoPi (s : List Nat) : List Nat :=
  (List.range 25).map fun j =>
    let jx := j % 5
    let jy := j / 5
    rol64 (lane s ((jx + 3 * jy) % 5 + 5 * jx)) (rhoByDest.getD j 0)

/-- Chi step of Keccak-f. -/
def chi (b : List Nat) : List Nat :=
  (List.range 25).map fun i =>
    let x := i % 5
    let y := i / 5
    lane b i ^^^ (((lane b ((x + 1) % 5 + 5 * y)) ^^^ mask64) &&& lane b ((x + 2) % 5 + 5 * y))

/-- Iota step: fold the round constant into lane 0. -/
def iotaStep (rc : Nat) (s : List Nat) : List Nat :=
  match s with
  | [] => []
  | a :: t => (a ^^^ rc) :: t

/-- One Keccak-f[1600] round. -/
def keccakRound (s : List Nat) (rc : Nat) : List Nat :=
  iotaStep rc (chi (rhoPi (theta s)))

/-- The full 24-round Keccak-f[1600] permutation. -/
def keccakF (s : List Nat) : List Nat := keccakRC.foldl keccakRound s

/-- Original Keccak multi-rate padding with domain byte `0x01` (rate 136). -/
def keccakPad (m : Bytes) : Bytes :=
  let q := 136 - m.length % 136
  if q = 1 then m ++ [0x81]
  else m ++ [0x01] ++ List.replicate (q - 2) 0 ++ [0x80]

/-- Little-endian 8-byte group as a 64-bit lane. -/
def bytesToLaneLE (b : Bytes) : Nat := b.foldr (fun byte acc => acc * 256 + byte) 0

/-- XOR one 136-byte block into the state and permute. -/
def absorbBlock (s : List Nat) (block : Bytes) : List Nat :=
  keccakF ((List.range 25).map fun i =>
    if i < 17 then lane s i ^^^ bytesToLaneLE ((block.drop (8 * i)).take 8) else lane s i)

/-- Split into 136-byte blocks, with structural fuel for kernel reduction. -/
def chunksAux : Nat → Bytes → List Bytes
  | 0, _ => []
  | _, [] => []
  | fuel + 1, a :: rest => (a :: rest).take 136 :: chunksAux fuel ((a :: rest).drop 136)

/-- Split a padded message into 136-byte blocks. -/
def chunks136 (m : Bytes) : List Bytes := chunksAux (m.length + 1) m

/-- Little-endian bytes of a 64-bit lane. -/
def laneToBytesLE (x : Nat) : Bytes := (List.range 8).map fun i => (x >>> (8 * i)) % 256

/-- Keccak-256 digest bytes of a byte message. -/
def keccak256Bytes (m : Bytes) : Bytes :=
  let s := (chunks136 (keccakPad m)).foldl absorbBlock (List.replicate 25 0)
  ((List.range 4).map fun i => laneToBytesLE (lane s i)).flatten

/-- Keccak-256 digest as a 256-bit number (`BigInt(keccak256Hex)` in JS). -/
def keccak256 (m : Bytes) : Nat := bytesToNatBE (keccak256Bytes m)

/-!
## Prover witness assembly (`sdk/src/prover/prover.ts`)

`bb.poseidon2Hash` comes from the external `@aztec/bb.js` library, exactly as
the source receives it through the `bb : Barretenberg` parameter; it is
modelled as an abstract function `p2 : List Bytes → Bytes` from input lists
to hash bytes.
-/

/-- BN254 field modulus, as in prover.ts. -/
def BN254_MODULUS : Nat :=
  21888242871839275222246405745257275088548364400416034343698204186575808495617

/-- Render a number as a 64-hex-digit `0x…` string. -/
def fieldHex (n : Nat) : String := "0x" ++ natToHex 64 n

namespace Prover

/-- prover.ts `hashEventId`: keccak256 of the UTF-8 bytes, reduced mod BN254,
rendered as a zero-padded 64-digit hex string. -/
def hashEventId (eventId : Bytes) : String :=
  fieldHex (keccak256 eventId % BN254_MODULUS)

end Prover

namespace Contract

/-- contract/index.ts exported `hashEventId`: keccak256 of the UTF-8 bytes,
with no modular reduction (viem returns the 32-byte digest as hex). -/
def hashEventId (eventId : Bytes) : String :=
  "0x" ++ natToHex 64 (keccak256 eventId)

end Contract

/-- prover.ts `padTo32Bytes`: truncate to 32, or right-align into 32 zeroed
bytes. -/
def padTo32Bytes (input : Bytes) : Bytes :=
  if 32 ≤ input.length then input.take 32
  else List.replicate (32 - input.length) 0 ++ input

/-- prover.ts `addressToField`: strip `0x`, lowercase, left-pad to 64 hex
digits (addresses are modelled as already-lowercase hex strings). -/
def addressToField (address : String) : String :=
  "0x" ++ ⟨List.replicate (64 - (address.data.drop 2).length) '0' ++ address.data.drop 2⟩

/-- prover.ts `computeIacaRoot`: Poseidon2 over the two padded coordinates. -/
def computeIacaRoot (p2 : List Bytes → Bytes) (pubkeyX pubkeyY : Bytes) : String :=
  bytesToHex (p2 [padTo32Bytes pubkeyX, padTo32Bytes pubkeyY])

/-- prover.ts `computeNullifier`: Poseidon2 over padded document number, the
event-id hex bytes, and the IACA-root hex bytes. -/
def computeNullifier (p2 : List Bytes → Bytes) (documentNumber : Bytes)
    (eventId iacaRoot : String) : String :=
  bytesToHex (p2 [padTo32Bytes documentNumber, hexToBytes eventId, hexToBytes iacaRoot])

/-- prover/types.ts `Credential`. -/
structure Credential where
  msoBytes : Bytes
  msoSignature : Bytes
  ageOver21ClaimBytes : Bytes
  ageOver18ClaimBytes : Bytes
  stateClaimBytes : Bytes
  documentNumber : Bytes
  iacaPubkeyX : Bytes
  iacaPubkeyY : Bytes

/-- prover/types.ts `ProofGenerationOptions` (fields the witness uses). -/
structure ProofGenerationOptions where
  eventId : Bytes
  boundAddress : String
  proveAgeOver21 : Option Bool := none
  proveAgeOver18 : Option Bool := none
  proveState : Option Bool := none

/-- The record returned by prover.ts `buildWitnessInputs`. -/
structure WitnessInputs where
  nullifier : String
  proof_timestamp : Nat
  event_id : String
  iaca_root : String
  bound_address : String
  prove_age_over_21 : Bool
  prove_age_over_18 : Bool
  prove_state : Bool
  proven_state : List Nat
  mso_bytes : Bytes
  mso_signature : Bytes
  age_over_21_claim_bytes : Bytes
  age_over_18_claim_bytes : Bytes
  state_claim_bytes : Bytes
  document_number : Bytes
  iaca_pubkey_x : Bytes
  iaca_pubkey_y : Bytes

/-- Offset of the 2-character state code inside the jurisdiction claim. -/
def STATE_CODE_OFFSET : Nat := 66

/-- prover.ts `buildWitnessInputs`. -/
def buildWitnessInputs (p2 : List Bytes → Bytes) (credential : Credential)
    (options : ProofGenerationOptions) (timestamp : Nat) : WitnessInputs :=
  let iacaRoot := computeIacaRoot p2 credential.iacaPubkeyX credential.iacaPubkeyY
  let eventId := Prover.hashEventId options.eventId
  let nullifier := computeNullifier p2 credential.documentNumber eventId iacaRoot
  let provenState :=
    if options.proveState.getD false then
      [credential.stateClaimBytes.getD STATE_CODE_OFFSET 0,
       credential.stateClaimBytes.getD (STATE_CODE_OFFSET + 1) 0]
    else [0, 0]
  { nullifier := nullifier
    proof_timestamp := timestamp
    event_id := eventId
    iaca_root := iacaRoot
    bound_address := addressToField options.boundAddress
    prove_age_over_21 := (options.proveAgeOver21.getD false)
    prove_age_over_18 := (options.proveAgeOver18.getD false)
    prove_state := (options.proveState.getD false)
    proven_state := provenState
    mso_bytes := credential.msoBytes
    mso_signature := credential.msoSignature
    age_over_21_claim_bytes := credential.ageOver21ClaimBytes
    age_over_18_claim_bytes := credential.ageOver18ClaimBytes
    state_claim_bytes := credential.stateClaimBytes
    document_number := credential.documentNumber
    iaca_pubkey_x := credential.iacaPubkeyX
    iaca_pubkey_y := credential.iacaPubkeyY }

/-!
## Credential parsing (`sdk/src/credential/parse.ts`, `credential/types.ts`)

Decoded CBOR values (what the external `cborg` `decode` returns) are modelled
by `CVal`; `decode` itself is an abstract parameter `Bytes → Option CVal`
(`none` models a thrown decode error).  JS `Date` values are epoch
milliseconds (`Int`); parsing of ISO date strings (`new Date(string)`) is
the abstract parameter `strToDate`.  Re-encoding of a non-byte COSE payload
(`encode(payload)` from `cborg`) is the abstract parameter `encodeVal`.
-/

/-- credential/types.ts `CredentialErrorCode`. -/
inductive CredentialErrorCode where
  | NOT_SUPPORTED
  | USER_CANCELLED
  | NO_CREDENTIAL
  | PARSE_ERROR
  | INVALID_CLAIM
  | EXPIRED
  | UNKNOWN
deriving DecidableEq, Repr

/-- credential/types.ts `CredentialError`. -/
structure CredentialError where
  message : String
  code : CredentialErrorCode
deriving DecidableEq, Repr

/-- Keys occurring in decoded CBOR maps. -/
inductive CKey where
  | int (n : Int)
  | text (s : Bytes)
deriving DecidableEq, Repr

/-- Decoded CBOR/JS value universe: `null`, numbers, byte strings, text
strings (as UTF-8 bytes), booleans, `Date`s (epoch ms), arrays, and maps
(whose keys, in the credential wire format, are integers or strings). -/
inductive CVal where
  | null
  | int (n : Int)
  | bool (b : Bool)
  | bytes (b : Bytes)
  | text (s : Bytes)
  | date (ms : Int)
  | arr (l : List CVal)
  | map (l : List (CKey × CVal))

/-- Map lookup by key, last binding wins (JS `Map.get` / object access after
cborg decoding, where later duplicate keys overwrite earlier ones). -/
def cvalLookup (v : CVal) (k : CKey) : Option CVal :=
  match v with
  | .map l => (l.reverse.find? fun kv => kv.1 == k).map Prod.snd
  | _ => none

/-- parse.ts `stringToBytes` (`TextEncoder().encode` of the string, then a
zero-initialised `size` buffer with the truncated bytes set at offset 0). -/
def stringToBytes (str : Bytes) (size : Nat) : Bytes :=
  str.take size ++ List.replicate (size - (str.take size).length) 0

/-- parse.ts `padToSize`: return same-size buffers unchanged, otherwise copy
the (truncated) bytes into a zero-initialised buffer at offset 0. -/
def padToSize (bytes : Bytes) (size : Nat) : Bytes :=
  if bytes.length = size then bytes
  else bytes.take size ++ List.replicate (size - (bytes.take size).length) 0

/-- parse.ts `isAllZeros`. -/
def isAllZeros (bytes : Bytes) : Bool := bytes.all (· == 0)

/-- parse.ts `parseDate`: `Date` passes through, numbers are unix seconds,
strings go through `new Date(string)`, anything else (including a missing
value) becomes `new Date(0)`. -/
def parseDate (strToDate : Bytes → Int) (v : Option CVal) : Int :=
  match v with
  | some (.date ms) => ms
  | some (.text s) => strToDate s
  | some (.int n) => n * 1000
  | _ => 0

/-- credential/types.ts `ParsedMSO` (dates as epoch milliseconds). -/
structure ParsedMSO where
  bytes : Bytes
  signature : Bytes
  signed : Int
  validFrom : Int
  validUntil : Int
  digestAlgorithm : CVal
  docType : CVal

/-- credential/types.ts `RawIssuerSignedItem`. -/
structure RawIssuerSignedItem where
  digestID : Nat
  random : Bytes
  elementIdentifier : Bytes
  elementValue : CVal
  rawBytes : Bytes

/-- credential/types.ts `RawCredentialResponse`; `namespaces` holds the
`org.iso.18013.5.1` entry (`none` models a missing key). -/
structure RawCredentialResponse where
  issuerAuth : Bytes
  namespaces : Option (List RawIssuerSignedItem)

/-- credential/types.ts `ParsedClaim`. -/
structure ParsedClaim where
  id : Bytes
  bytes : Bytes
  value : CVal
  digestIndex : Nat

/-- credential/types.ts `ParsedCredential`; `claims` keeps insertion order,
with `claimsGet` providing the JS `Map` lookup semantics. -/
structure ParsedCredential where
  mso : ParsedMSO
  claims : List ParsedClaim
  iacaPubkeyX : Bytes
  iacaPubkeyY : Bytes
  documentNumber : Bytes

/-- JS `Map.get` over claims built by repeated `set`: the last entry with the
key wins. -/
def claimsGet (claims : List ParsedClaim) (k : Bytes) : Option ParsedClaim :=
  claims.reverse.find? fun c => c.id == k

/-- UTF-8 bytes of a JS string value (`value as string` fed to
`TextEncoder`); only text values occur in well-formed credentials. -/
def valueBytes : CVal → Bytes
  | .text s => s
  | _ => []

/-- parse.ts `parseMSO`. -/
def parseMSO (decode : Bytes → Option CVal) (strToDate : Bytes → Int)
    (encodeVal : CVal → Bytes) (issuerAuth : Bytes) : Except CredentialError ParsedMSO :=
  match decode issuerAuth with
  | none => .error ⟨"decode threw", .PARSE_ERROR⟩
  | some v =>
    match v with
    | .arr coseSign1 =>
      if coseSign1.length < 4 then .error ⟨"Invalid COSE_Sign1 structure", .PARSE_ERROR⟩
      else
        let payload := coseSign1.getD 2 .null
        let signature := coseSign1.getD 3 .null
        let msoBytes := match payload with
          | .bytes b => b
          | other => encodeVal other
        match decode msoBytes with
        | none => .error ⟨"decode threw", .PARSE_ERROR⟩
        | some .null => .error ⟨"property access on null threw", .PARSE_ERROR⟩
        | some msoDecoded =>
          let validityInfo := cvalLookup msoDecoded (.text (asciiBytes "validityInfo"))
          let vmap := validityInfo.getD (.map [])
          .ok
            { bytes := msoBytes
              signature := match signature with | .bytes b => b | _ => []
              signed := parseDate strToDate (cvalLookup vmap (.text (asciiBytes "signed")))
              validFrom := parseDate strToDate (cvalLookup vmap (.text (asciiBytes "validFrom")))
              validUntil := parseDate strToDate (cvalLookup vmap (.text (asciiBytes "validUntil")))
              digestAlgorithm :=
                (cvalLookup msoDecoded (.text (asciiBytes "digestAlgorithm"))).getD
                  (.text (asciiBytes "SHA-256"))
              docType :=
                (cvalLookup msoDecoded (.text (asciiBytes "docType"))).getD
                  (.text (asciiBytes "org.iso.18013.5.1.mDL")) }
    | _ => .error ⟨"Invalid COSE_Sign1 structure", .PARSE_ERROR⟩

/-- parse.ts `extractPubkeyFromCert` scan predicate at index `i`: marker byte
`0x04`, preceded by length byte `0x41`, followed by two non-zero 32-byte
coordinates. -/
def certMatchAt (certBytes : Bytes) (i : Nat) : Bool :=
  certBytes.getD i 0 == 0x04 && decide (0 < i) && certBytes.getD (i - 1) 0 == 0x41 &&
    !isAllZeros (slice certBytes (i + 1) 32) && !isAllZeros (slice certBytes (i + 33) 32)

/-- The scan loop `for i = 0; i < certBytes.length - 64; i++`: the first
index satisfying the marker predicate.  (JS integer `i < length - 64` is
`i + 64 < length`.) -/
def certScan (certBytes : Bytes) : Option Nat :=
  (List.range certBytes.length).find? fun i =>
    decide (i + 64 < certBytes.length) && certMatchAt certBytes i

/-- parse.ts `extractPubkeyFromCert`: scan for the first matching offset. -/
def extractPubkeyFromCert (certBytes : Bytes) : Except CredentialError (Bytes × Bytes) :=
  match certScan certBytes with
  | some i => .ok (slice certBytes (i + 1) 32, slice certBytes (i + 33) 32)
  | none => .error ⟨"Could not extract public key from certificate", .PARSE_ERROR⟩

/-- The chain lookup result is absent, not an array, or empty (the JS test
`!x5chain || !Array.isArray(x5chain) || x5chain.length === 0`). -/
def chainMissing (o : Option CVal) : Bool :=
  match o with
  | some (.arr (_ :: _)) => false
  | _ => true

/-- parse.ts `extractIACAPubkey`.  The selected chain entry must be a byte
string for the scan to run; other JS shapes end in a thrown error that the
caller turns into a `PARSE_ERROR`. -/
def extractIACAPubkey (decode : Bytes → Option CVal) (issuerAuth : Bytes) :
    Except CredentialError (Bytes × Bytes) :=
  match decode issuerAuth with
  | none => .error ⟨"decode threw", .PARSE_ERROR⟩
  | some (.arr coseSign1) =>
    if coseSign1.length < 2 then
      .error ⟨"Invalid COSE_Sign1 structure for key extraction", .PARSE_ERROR⟩
    else
      let protectedBytes := coseSign1.getD 0 .null
      match protectedBytes with
      | .bytes pb =>
        match decode pb with
        | none => .error ⟨"decode threw", .PARSE_ERROR⟩
        | some protectedHeader =>
          let x5chain := cvalLookup protectedHeader (.int 33)
          if chainMissing x5chain then
            let unprotectedHeader := coseSign1.getD 1 .null
            let certChain := cvalLookup unprotectedHeader (.int 33)
            match certChain with
            | some (.arr (c :: _)) =>
              match c with
              | .bytes cb => extractPubkeyFromCert cb
              | _ => .error ⟨"Could not extract public key from certificate", .PARSE_ERROR⟩
            | _ => .error ⟨"No certificate chain found in issuerAuth", .PARSE_ERROR⟩
          else
            match x5chain with
            | some (.arr (c :: _)) =>
              match c with
              | .bytes cb => extractPubkeyFromCert cb
              | _ => .error ⟨"Could not extract public key from certificate", .PARSE_ERROR⟩
            | _ => .error ⟨"No certificate chain found in issuerAuth", .PARSE_ERROR⟩
      | _ => .error ⟨"decode threw", .PARSE_ERROR⟩
  | some _ => .error ⟨"Invalid COSE_Sign1 structure for key extraction", .PARSE_ERROR⟩

/-- The claims map built by parse.ts `parseCredential`'s loop of `set`
calls, in iteration order. -/
def buildClaims (items : List RawIssuerSignedItem) : List ParsedClaim :=
  items.map fun item =>
    { id := item.elementIdentifier
      bytes := item.rawBytes
      value := item.elementValue
      digestIndex := item.digestID }

/-- parse.ts `parseCredential`. -/
def parseCredential (decode : Bytes → Option CVal) (strToDate : Bytes → Int)
    (encodeVal : CVal → Bytes) (raw : RawCredentialResponse) :
    Except CredentialError ParsedCredential :=
  match parseMSO decode strToDate encodeVal raw.issuerAuth with
  | .error e => .error e
  | .ok mso =>
    match raw.namespaces with
    | none => .error ⟨"Missing org.iso.18013.5.1 namespace in credential", .PARSE_ERROR⟩
    | some items =>
      let claims := buildClaims items
      match claimsGet claims (asciiBytes "document_number") with
      | none => .error ⟨"document_number claim is required but not present", .INVALID_CLAIM⟩
      | some docNumberClaim =>
        let documentNumber := stringToBytes (valueBytes docNumberClaim.value) 32
        match extractIACAPubkey decode raw.issuerAuth with
        | .error e => .error e
        | .ok iacaPubkey =>
          .ok
            { mso := mso
              claims := claims
              iacaPubkeyX := iacaPubkey.1
              iacaPubkeyY := iacaPubkey.2
              documentNumber := documentNumber }

/-- parse.ts `toProverCredential`. -/
def toProverCredential (parsed : ParsedCredential) : Except CredentialError Credential :=
  match claimsGet parsed.claims (asciiBytes "age_over_21") with
  | none => .error ⟨"age_over_21 claim is required", .INVALID_CLAIM⟩
  | some ageOver21Claim =>
    match claimsGet parsed.claims (asciiBytes "age_over_18") with
    | none => .error ⟨"age_over_18 claim is required", .INVALID_CLAIM⟩
    | some ageOver18Claim =>
      match claimsGet parsed.claims (asciiBytes "issuing_jurisdiction") with
      | none => .error ⟨"issuing_jurisdiction claim is required", .INVALID_CLAIM⟩
      | some stateClaim =>
        .ok
          { msoBytes := padToSize parsed.mso.bytes 512
            msoSignature := padToSize parsed.mso.signature 64
            ageOver21ClaimBytes := padToSize ageOver21Claim.bytes 96
            ageOver18ClaimBytes := padToSize ageOver18Claim.bytes 96
            stateClaimBytes := padToSize stateClaim.bytes 107
            documentNumber := parsed.documentNumber
            iacaPubkeyX := padToSize parsed.iacaPubkeyX 32
            iacaPubkeyY := padToSize parsed.iacaPubkeyY 32 }

/-!
## CBOR encoding and the HPKE session (`sdk/src/contract/index.ts`)

`cborg`'s `encode` is deterministic CBOR (RFC 8949, smallest-width heads).
The values this code encodes are nulls, strings, byte strings, arrays, and
string-keyed objects, captured by `CItem`.
-/

/-- Values passed to cborg `encode` by the SDK. -/
inductive CItem where
  | null
  | text (s : Bytes)
  | bytes (b : Bytes)
  | arr (l : List CItem)
  | map (l : List (Bytes × CItem))

/-- CBOR head bytes for a major type and argument, smallest-width form. -/
def encodeHead (major n : Nat) : Bytes :=
  if n < 24 then [32 * major + n]
  else if n < 256 then [32 * major + 24, n]
  else if n < 65536 then [32 * major + 25, n / 256, n % 256]
  else if n < 4294967296 then
    [32 * major + 26, n / 16777216 % 256, n / 65536 % 256, n / 256 % 256, n % 256]
  else
    [32 * major + 27, n / 72057594037927936 % 256, n / 281474976710656 % 256,
     n / 1099511627776 % 256, n / 4294967296 % 256, n / 16777216 % 256,
     n / 65536 % 256, n / 256 % 256, n % 256]

mutual

/-- CBOR encoding of one item (cborg `encode`). -/
def encodeCItem : CItem → Bytes
  | .null => [0xf6]
  | .text s => encodeHead 3 s.length ++ s
  | .bytes b => encodeHead 2 b.length ++ b
  | .arr l => encodeHead 4 l.length ++ encodeItems l
  | .map l => encodeHead 5 l.length ++ encodePairs l

/-- CBOR encoding of array elements in order. -/
def encodeItems : List CItem → Bytes
  | [] => []
  | x :: xs => encodeCItem x ++ encodeItems xs

/-- CBOR encoding of map entries (text key, then value) in order. -/
def encodePairs : List (Bytes × CItem) → Bytes
  | [] => []
  | kv :: rest => encodeHead 3 kv.1.length ++ kv.1 ++ encodeCItem kv.2 ++ encodePairs rest

end

/-- contract/index.ts `HPKESession` (the `CryptoKey` handle is opaque). -/
structure HPKESession where
  privateKey : Nat
  publicKeyBytes : Bytes
  nonce : Bytes
  origin : Bytes

/-- contract/index.ts `EncryptedCredentialDocument` (flattening the nested
`encryptionParameters`). -/
structure EncryptedCredentialDocument where
  version : Bytes
  eDeviceKey : Bytes
  originInfoBytes : Bytes
  data : Bytes

/-- contract/index.ts `buildSessionTranscript`. -/
def buildSessionTranscript (session : HPKESession) (pkEm : Bytes) : Bytes :=
  let originInfo := encodeCItem (.map [(asciiBytes "origin", .text session.origin)])
  let requesterIdentity := encodeCItem (.map [])
  let browserHandover : CItem :=
    .arr [.text (asciiBytes "BrowserHandoverv1"), .bytes session.nonce,
          .bytes originInfo, .bytes requesterIdentity, .bytes pkEm]
  encodeCItem (.arr [.null, .null, browserHandover])

/-- contract/index.ts `decryptCredentialResponse`.  `derive` abstracts the
WebCrypto-backed `decap` + `keyScheduleR` chain (ECDH, HMAC, HKDF): it maps
the encapsulated key and the session's key material to the AEAD key and base
nonce, with `none` for a thrown ECDH/import error.  `openAEAD` abstracts
WebCrypto AES-128-GCM decryption (`none` for a thrown authentication
failure).  Any thrown error is caught and rewrapped with code
`PARSE_ERROR`. -/
def decryptCredentialResponse (derive : Bytes → Nat → Bytes → Option (Bytes × Bytes))
    (openAEAD : Bytes → Bytes → Bytes → Bytes → Option Bytes)
    (encrypted : EncryptedCredentialDocument) (session : HPKESession) :
    Except CredentialError Bytes :=
  let enc := encrypted.eDeviceKey
  let ciphertext := encrypted.data
  let sessionTranscript := buildSessionTranscript session enc
  match derive enc session.privateKey session.publicKeyBytes with
  | none => .error ⟨"Failed to decrypt credential response", .PARSE_ERROR⟩
  | some kn =>
    match openAEAD kn.1 kn.2 sessionTranscript ciphertext with
    | none => .error ⟨"Failed to decrypt credential response", .PARSE_ERROR⟩
    | some plaintext => .ok plaintext

/-- Two successive decrypt calls on the same session (the source keeps no
session state, so each call re-runs the same pure computation). -/
def decryptTwice (derive : Bytes → Nat → Bytes → Option (Bytes × Bytes))
    (openAEAD : Bytes → Bytes → Bytes → Bytes → Option Bytes)
    (encrypted : EncryptedCredentialDocument) (session : HPKESession) :
    Except CredentialError Bytes × Except CredentialError Bytes :=
  (decryptCredentialResponse derive openAEAD encrypted session,
   decryptCredentialResponse derive openAEAD encrypted session)

/-- Modelled from the spec: the error taxonomy of spec section 7
(UNSUPPORTED, USER_DECLINED, NO_DATA, DECRYPTION_FAILED, PARSE_FAILED,
STALE); the code's own `CredentialErrorCode` has no decryption-specific
kind. -/
inductive SpecErrorKind where
  | UNSUPPORTED
  | USER_DECLINED
  | NO_DATA
  | DECRYPTION_FAILED
  | PARSE_FAILED
  | STALE
deriving DecidableEq, Repr

/-- Modelled from the spec: the correspondence between the code's error codes
and the spec taxonomy names (NOT_SUPPORTED↔UNSUPPORTED,
USER_CANCELLED↔USER_DECLINED, NO_CREDENTIAL↔NO_DATA, PARSE_ERROR and
INVALID_CLAIM↔PARSE_FAILED, EXPIRED↔STALE; UNKNOWN has no spec
counterpart). -/
def specKindOf : CredentialErrorCode → Option SpecErrorKind
  | .NOT_SUPPORTED => some .UNSUPPORTED
  | .USER_CANCELLED => some .USER_DECLINED
  | .NO_CREDENTIAL => some .NO_DATA
  | .PARSE_ERROR => some .PARSE_FAILED
  | .INVALID_CLAIM => some .PARSE_FAILED
  | .EXPIRED => some .STALE
  | .UNKNOWN => none

/-!
## Concrete AEAD instance

A symbolic authenticated cipher used to instantiate the abstract AEAD in
witnesses: the "ciphertext" records the key, nonce, and associated data it
was sealed under, length-prefixed, followed by the plaintext.
-/

/-- Symbolic seal: length header, then key, nonce, associated data,
plaintext. -/
def sealConcrete (k n a p : Bytes) : Bytes :=
  [k.length, n.length, a.length] ++ k ++ n ++ a ++ p

/-- Symbolic open: succeeds exactly on values sealed under the same key,
nonce, and associated data. -/
def openConcrete (k n a c : Bytes) : Option Bytes :=
  let h := [k.length, n.length, a.length] ++ k ++ n ++ a
  if c.take h.length = h then some (c.drop h.length) else none

/-!
## Lemmas: hex and byte conversions
-/

theorem hexCharVal_hexDigitChar {d : Nat} (hd : d < 16) :
    hexCharVal (hexDigitChar d) = d := by
  interval_cases d <;> decide

theorem natToHexCore_length (k n : Nat) : (natToHexCore k n).length = k := by
  induction k generalizing n with
  | zero => rfl
  | succ k ih => simp [natToHexCore, ih]

theorem pairUp_append (m : Nat) : ∀ (xs ys : List Char), xs.length = 2 * m →
    pairUp (xs ++ ys) = pairUp xs ++ pairUp ys := by
  induction m with
  | zero =>
    intro xs ys hx
    rw [List.length_eq_zero] at hx
    rw [hx]
    rfl
  | succ k ih =>
    intro xs ys hx
    match xs with
    | [] => simp at hx
    | [a] =>
      simp only [List.length_cons, List.length_nil] at hx
      omega
    | a :: b :: t =>
      have ht : t.length = 2 * k := by
        simp only [List.length_cons] at hx
        omega
      show (16 * hexCharVal a + hexCharVal b) :: pairUp (t ++ ys)
          = (16 * hexCharVal a + hexCharVal b) :: (pairUp t ++ pairUp ys)
      rw [ih t ys ht]

theorem mod_mul_base {b : Nat} (k n : Nat) :
    n % b ^ (k + 1) = b * (n / b % b ^ k) + n % b := by
  rw [pow_succ', Nat.mod_mul]
  omega

theorem pairUp_natToHexCore : ∀ (k n : Nat),
    pairUp (natToHexCore (2 * k) n) = natToBytesBE k n
  | 0, _ => rfl
  | k + 1, n => by
    have e1 : natToHexCore (2 * (k + 1)) n
        = natToHexCore (2 * k) (n / 256)
            ++ [hexDigitChar (n / 16 % 16), hexDigitChar (n % 16)] := by
      have h2 : 2 * (k + 1) = (2 * k + 1) + 1 := by omega
      rw [h2]
      show natToHexCore (2 * k + 1) (n / 16) ++ [hexDigitChar (n % 16)] = _
      rw [show natToHexCore (2 * k + 1) (n / 16)
            = natToHexCore (2 * k) (n / 16 / 16) ++ [hexDigitChar (n / 16 % 16)] from rfl]
      rw [show n / 16 / 16 = n / 256 by omega, List.append_assoc]
      rfl
    have hx : pairUp [hexDigitChar (n / 16 % 16), hexDigitChar (n % 16)]
        = [16 * (n / 16 % 16) + n % 16] := by
      simp [pairUp, hexCharVal_hexDigitChar (Nat.mod_lt (n / 16) (show 0 < 16 by norm_num)),
        hexCharVal_hexDigitChar (Nat.mod_lt n (show 0 < 16 by norm_num))]
    rw [e1, pairUp_append k _ _ (by rw [natToHexCore_length]),
      pairUp_natToHexCore k (n / 256), hx]
    show _ = natToBytesBE k (n / 256) ++ [n % 256]
    congr 2
    omega

theorem fromHexDigits_natToHexCore : ∀ (k n : Nat),
    fromHexDigits (natToHexCore k n) = n % 16 ^ k
  | 0, n => by simp [natToHexCore, fromHexDigits, Nat.mod_one]
  | k + 1, n => by
    show fromHexDigits (natToHexCore k (n / 16) ++ [hexDigitChar (n % 16)]) = _
    rw [fromHexDigits, List.foldl_append]
    rw [show (natToHexCore k (n / 16)).foldl (fun acc c => acc * 16 + hexCharVal c) 0
          = fromHexDigits (natToHexCore k (n / 16)) from rfl]
    rw [fromHexDigits_natToHexCore k (n / 16)]
    simp only [List.foldl_cons, List.foldl_nil]
    rw [hexCharVal_hexDigitChar (Nat.mod_lt n (show 0 < 16 by norm_num))]
    rw [mod_mul_base k n]
    ring

theorem bytesToNatBE_natToBytesBE : ∀ (k n : Nat),
    bytesToNatBE (natToBytesBE k n) = n % 256 ^ k
  | 0, n => by simp [natToBytesBE, bytesToNatBE, Nat.mod_one]
  | k + 1, n => by
    show bytesToNatBE (natToBytesBE k (n / 256) ++ [n % 256]) = _
    rw [bytesToNatBE, List.foldl_append]
    rw [show (natToBytesBE k (n / 256)).foldl (fun acc byte => acc * 256 + byte) 0
          = bytesToNatBE (natToBytesBE k (n / 256)) from rfl]
    rw [bytesToNatBE_natToBytesBE k (n / 256)]
    simp only [List.foldl_cons, List.foldl_nil]
    rw [mod_mul_base k n]
    ring

theorem natToBytesBE_inj {k n₁ n₂ : Nat} (h₁ : n₁ < 256 ^ k) (h₂ : n₂ < 256 ^ k)
    (h : natToBytesBE k n₁ = natToBytesBE k n₂) : n₁ = n₂ := by
  have := congrArg bytesToNatBE h
  rwa [bytesToNatBE_natToBytesBE, bytesToNatBE_natToBytesBE,
    Nat.mod_eq_of_lt h₁, Nat.mod_eq_of_lt h₂] at this

theorem natToHex_inj {k n₁ n₂ : Nat} (h₁ : n₁ < 16 ^ k) (h₂ : n₂ < 16 ^ k)
    (h : natToHex k n₁ = natToHex k n₂) : n₁ = n₂ := by
  have h' : (⟨natToHexCore k n₁⟩ : String) = ⟨natToHexCore k n₂⟩ := h
  have hdata : natToHexCore k n₁ = natToHexCore k n₂ := congrArg String.data h'
  have := congrArg fromHexDigits hdata
  rwa [fromHexDigits_natToHexCore, fromHexDigits_natToHexCore,
    Nat.mod_eq_of_lt h₁, Nat.mod_eq_of_lt h₂] at this

theorem data_0x_append (s : String) : ("0x" ++ s).data = '0' :: 'x' :: s.data := by
  rw [String.data_append]; rfl

theorem hexToBytes_fieldHex (n : Nat) : hexToBytes (fieldHex n) = natToBytesBE 32 n := by
  rw [fieldHex, hexToBytes, data_0x_append]
  show pairUp (natToHexCore 64 n) = _
  rw [show (64 : Nat) = 2 * 32 from rfl, pairUp_natToHexCore]

theorem hexStrToNat_fieldHex {n : Nat} (h : n < 16 ^ 64) : hexStrToNat (fieldHex n) = n := by
  rw [fieldHex, hexStrToNat, data_0x_append]
  show fromHexDigits (natToHexCore 64 n) = n
  rw [fromHexDigits_natToHexCore, Nat.mod_eq_of_lt h]

theorem hexToBytes_bytesToHex : ∀ {b : Bytes}, isBytes b = true →
    hexToBytes (bytesToHex b) = b := by
  intro b
  induction b with
  | nil => intro _; rfl
  | cons x t ih =>
    intro h
    have hx : x < 256 := by
      have := (List.all_eq_true.1 h) x (by simp)
      simpa using this
    have ht : isBytes t = true := by
      apply List.all_eq_true.2
      intro y hy
      exact (List.all_eq_true.1 h) y (by simp [hy])
    show pairUp (bytesToHexChars (x :: t)) = x :: t
    have hchars : bytesToHexChars (x :: t)
        = [hexDigitChar (x / 16 % 16), hexDigitChar (x % 16)] ++ bytesToHexChars t := by
      simp [bytesToHexChars]
    rw [hchars, pairUp_append 1 _ _ (by simp)]
    have hpx : pairUp [hexDigitChar (x / 16 % 16), hexDigitChar (x % 16)] = [x] := by
      simp [pairUp, hexCharVal_hexDigitChar (Nat.mod_lt (x / 16) (show 0 < 16 by norm_num)),
        hexCharVal_hexDigitChar (Nat.mod_lt x (show 0 < 16 by norm_num))]
      omega
    rw [hpx]
    have ht' : pairUp (bytesToHexChars t) = t := ih ht
    simp [ht']

theorem bytesToHex_inj {a b : Bytes} (ha : isBytes a = true) (hb : isBytes b = true)
    (h : bytesToHex a = bytesToHex b) : a = b := by
  have := congrArg hexToBytes h
  rwa [hexToBytes_bytesToHex ha, hexToBytes_bytesToHex hb] at this

/-!
## Lemmas: size bound on keccak digests
-/

theorem foldl_byte_acc : ∀ (b : Bytes) (acc : Nat),
    b.foldl (fun a d => a * 256 + d) acc
      = acc * 256 ^ b.length + b.foldl (fun a d => a * 256 + d) 0
  | [], acc => by simp
  | x :: t, acc => by
    simp only [List.foldl_cons, List.length_cons, Nat.zero_mul, Nat.zero_add]
    rw [foldl_byte_acc t (acc * 256 + x), foldl_byte_acc t x]
    ring

theorem bytesToNatBE_lt : ∀ {b : Bytes}, isBytes b = true →
    bytesToNatBE b < 256 ^ b.length := by
  intro b
  induction b with
  | nil => intro _; simp [bytesToNatBE]
  | cons x t ih =>
    intro h
    have hx : x < 256 := by
      have := (List.all_eq_true.1 h) x (by simp)
      simpa using this
    have ht : isBytes t = true := by
      apply List.all_eq_true.2
      intro y hy
      exact (List.all_eq_true.1 h) y (by simp [hy])
    have htlt := ih ht
    show (x :: t).foldl (fun a d => a * 256 + d) 0 < 256 ^ (x :: t).length
    simp only [List.foldl_cons, List.length_cons, Nat.zero_mul, Nat.zero_add]
    rw [foldl_byte_acc t x]
    have h1 : x * 256 ^ t.length + bytesToNatBE t < (x + 1) * 256 ^ t.length := by
      have : bytesToNatBE t < 256 ^ t.length := htlt
      nlinarith [this]
    have h2 : (x + 1) * 256 ^ t.length ≤ 256 * 256 ^ t.length := by
      have : x + 1 ≤ 256 := by omega
      exact Nat.mul_le_mul_right _ this
    calc x * 256 ^ t.length + t.foldl (fun a d => a * 256 + d) 0
        = x * 256 ^ t.length + bytesToNatBE t := rfl
      _ < (x + 1) * 256 ^ t.length := h1
      _ ≤ 256 * 256 ^ t.length := h2
      _ = 256 ^ (t.length + 1) := by ring

theorem laneToBytesLE_isBytes (x : Nat) : isBytes (laneToBytesLE x) = true := by
  apply List.all_eq_true.2
  intro y hy
  simp only [laneToBytesLE, List.mem_map] at hy
  obtain ⟨i, _, rfl⟩ := hy
  simpa using Nat.mod_lt _ (show 0 < 256 by norm_num)

theorem keccak256Bytes_isBytes (m : Bytes) : isBytes (keccak256Bytes m) = true := by
  apply List.all_eq_true.2
  intro y hy
  simp only [keccak256Bytes, List.mem_flatten, List.mem_map] at hy
  obtain ⟨l, ⟨i, _, rfl⟩, hyl⟩ := hy
  exact (List.all_eq_true.1 (laneToBytesLE_isBytes _)) y hyl

theorem keccak256Bytes_length (m : Bytes) : (keccak256Bytes m).length = 32 := by
  have hlane : ∀ x, (laneToBytesLE x).length = 8 := by
    intro x
    simp [laneToBytesLE]
  simp only [keccak256Bytes]
  rw [show List.range 4 = [0, 1, 2, 3] from rfl]
  simp [hlane]

theorem keccak256_lt (m : Bytes) : keccak256 m < 16 ^ 64 := by
  have h := bytesToNatBE_lt (keccak256Bytes_isBytes m)
  rw [keccak256Bytes_length] at h
  have : (256 : Nat) ^ 32 = 16 ^ 64 := by norm_num
  rw [this] at h
  exact h

/-!
## Lemmas: the symbolic AEAD
-/

theorem take_len_append (u v : Bytes) : (u ++ v).take u.length = u := by simp

theorem drop_len_append (u v : Bytes) : (u ++ v).drop u.length = v := by simp

theorem openConcrete_sealConcrete (k n a p : Bytes) :
    openConcrete k n a (sealConcrete k n a p) = some p := by
  have hts : sealConcrete k n a p
      = ([k.length, n.length, a.length] ++ k ++ n ++ a) ++ p := by
    simp [sealConcrete]
  simp only [openConcrete, hts]
  rw [take_len_append, drop_len_append]
  simp

theorem openConcrete_some {k n a c p : Bytes} (h : openConcrete k n a c = some p) :
    c = sealConcrete k n a p := by
  rw [openConcrete] at h
  split at h
  · next hc =>
    have hp : p = c.drop ([k.length, n.length, a.length] ++ k ++ n ++ a).length := by
      injection h with h'
      exact h'.symm
    have := List.take_append_drop ([k.length, n.length, a.length] ++ k ++ n ++ a).length c
    rw [hc] at this
    rw [hp, sealConcrete]
    simp only [List.append_assoc] at this ⊢
    exact this.symm
  · exact absurd h (by simp)

theorem sealConcrete_inj {k₁ n₁ a₁ p₁ k₂ n₂ a₂ p₂ : Bytes}
    (h : sealConcrete k₁ n₁ a₁ p₁ = sealConcrete k₂ n₂ a₂ p₂) :
    k₁ = k₂ ∧ n₁ = n₂ ∧ a₁ = a₂ ∧ p₁ = p₂ := by
  simp only [sealConcrete, List.cons_append, List.nil_append, List.cons.injEq] at h
  obtain ⟨hk, hn, ha, hrest⟩ := h
  rw [List.append_assoc, List.append_assoc, List.append_assoc, List.append_assoc] at hrest
  obtain ⟨hkk, hrest⟩ := List.append_inj hrest hk
  obtain ⟨hnn, hrest⟩ := List.append_inj hrest hn
  obtain ⟨haa, hpp⟩ := List.append_inj hrest ha
  exact ⟨hkk, hnn, haa, hpp⟩

/-!
## Lemmas: session transcript structure
-/

theorem buildSessionTranscript_decomp (s : HPKESession) (pkEm : Bytes) :
    buildSessionTranscript s pkEm
      = encodeHead 4 3 ++ [0xf6] ++ [0xf6] ++ encodeHead 4 5
          ++ encodeCItem (.text (asciiBytes "BrowserHandoverv1"))
          ++ encodeCItem (.bytes s.nonce)
          ++ encodeCItem (.bytes (encodeCItem (.map [(asciiBytes "origin", .text s.origin)])))
          ++ encodeCItem (.bytes (encodeCItem (.map [])))
          ++ encodeHead 2 pkEm.length ++ pkEm := by
  simp [buildSessionTranscript, encodeCItem, encodeItems]

theorem buildSessionTranscript_pkEm_inj (s : HPKESession) {e₁ e₂ : Bytes}
    (hlen : e₁.length = e₂.length)
    (h : buildSessionTranscript s e₁ = buildSessionTranscript s e₂) : e₁ = e₂ := by
  rw [buildSessionTranscript_decomp, buildSessionTranscript_decomp, hlen] at h
  simp only [List.append_assoc] at h
  repeat
    first
    | exact h
    | (apply List.append_cancel_left at h)

/-!
## Concrete injective hash with byte-valued output (for witnesses)
-/

/-- Little-endian base-256 digits with structural fuel. -/
def natDigitsLE : Nat → Nat → Bytes
  | 0, _ => []
  | fuel + 1, n => if n = 0 then [] else n % 256 :: natDigitsLE fuel (n / 256)

/-- Value of little-endian digits. -/
def digitsValLE (b : Bytes) : Nat := b.foldr (fun d acc => acc * 256 + d) 0

theorem digitsValLE_natDigitsLE : ∀ (fuel n : Nat), n ≤ fuel →
    digitsValLE (natDigitsLE fuel n) = n
  | 0, n, h => by
    simp only [natDigitsLE, digitsValLE, List.foldr_nil]
    omega
  | fuel + 1, n, h => by
    by_cases hn : n = 0
    · simp [natDigitsLE, digitsValLE, hn]
    · have hrec : n / 256 ≤ fuel := by
        have : n / 256 < n := Nat.div_lt_self (by omega) (by norm_num)
        omega
      simp only [natDigitsLE, hn, if_false, digitsValLE, List.foldr_cons]
      rw [show (natDigitsLE fuel (n / 256)).foldr (fun d acc => acc * 256 + d) 0
            = digitsValLE (natDigitsLE fuel (n / 256)) from rfl]
      rw [digitsValLE_natDigitsLE fuel (n / 256) hrec]
      omega

theorem natDigitsLE_isBytes : ∀ (fuel n : Nat), isBytes (natDigitsLE fuel n) = true
  | 0, _ => rfl
  | fuel + 1, n => by
    by_cases hn : n = 0
    · simp [natDigitsLE, hn, isBytes]
    · simp only [natDigitsLE, hn, if_false, isBytes, List.all_cons, Bool.and_eq_true]
      constructor
      · simpa using Nat.mod_lt n (show 0 < 256 by norm_num)
      · exact natDigitsLE_isBytes fuel (n / 256)

/-- An injective hash `List Bytes → Bytes` with byte-valued output, used to
instantiate the abstract Poseidon2 parameter in witnesses. -/
def p2Concrete (l : List Bytes) : Bytes :=
  natDigitsLE (Encodable.encode l + 1) (Encodable.encode l)

theorem p2Concrete_injective : Function.Injective p2Concrete := by
  intro l₁ l₂ h
  apply Encodable.encode_injective (α := List Bytes)
  have h₁ : digitsValLE (p2Concrete l₁) = Encodable.encode l₁ :=
    digitsValLE_natDigitsLE _ _ (by omega)
  have h₂ : digitsValLE (p2Concrete l₂) = Encodable.encode l₂ :=
    digitsValLE_natDigitsLE _ _ (by omega)
  rw [← h₁, ← h₂, h]

theorem p2Concrete_isBytes (l : List Bytes) : isBytes (p2Concrete l) = true :=
  natDigitsLE_isBytes _ _

/-!
## Concrete fixtures (for witnesses and counterexamples)
-/

/-- A certificate byte string containing `0x41 0x04` followed by two non-zero
32-byte coordinates. -/
def fixtureCert : Bytes := [0x41, 0x04] ++ List.replicate 32 1 ++ List.replicate 32 2

/-- Protected header with an x5chain (label 33) holding one certificate. -/
def fixtureProtectedHeader : CVal := .map [(.int 33, .arr [.bytes fixtureCert])]

/-- COSE_Sign1 fixture: protected bytes `[1]`, empty unprotected header,
payload bytes `[2]`, 64-byte signature. -/
def fixtureCose : CVal :=
  .arr [.bytes [1], .map [], .bytes [2], .bytes (List.replicate 64 9)]

/-- MSO fixture with no `validityInfo` (all dates fall back to epoch 0). -/
def fixtureMSO : CVal := .map []

/-- Concrete cborg decode covering the fixture byte strings. -/
def fixtureDecode : Bytes → Option CVal := fun b =>
  if b = [0] then some fixtureCose
  else if b = [1] then some fixtureProtectedHeader
  else if b = [2] then some fixtureMSO
  else none

/-- Namespace item carrying the document number. -/
def fixtureItem (docNum : Bytes) : RawIssuerSignedItem :=
  { digestID := 0
    random := List.replicate 32 3
    elementIdentifier := asciiBytes "document_number"
    elementValue := .text docNum
    rawBytes := [0xa1] }

/-- Raw credential response fixture with only the document-number claim. -/
def fixtureRaw (docNum : Bytes) : RawCredentialResponse :=
  { issuerAuth := [0], namespaces := some [fixtureItem docNum] }

/-- Raw credential response fixture with all claims the prover requires. -/
def fixtureRawFull (docNum : Bytes) : RawCredentialResponse :=
  { issuerAuth := [0]
    namespaces := some
      [fixtureItem docNum,
       { digestID := 1, random := [], elementIdentifier := asciiBytes "age_over_21",
         elementValue := .bool true, rawBytes := [2] },
       { digestID := 2, random := [], elementIdentifier := asciiBytes "age_over_18",
         elementValue := .bool true, rawBytes := [3] },
       { digestID := 3, random := [], elementIdentifier := asciiBytes "issuing_jurisdiction",
         elementValue := .text (asciiBytes "CA"), rawBytes := [4] }] }

/-!
## Claim theorems
-/

/-- C10: `padToSize` returns a buffer already of the target width unchanged,
and extends a shorter buffer by appending only trailing zero bytes. -/
theorem claim_C10_padToSize_idempotent (b : Bytes) (size : Nat) :
    (b.length = size → padToSize b size = b)
    ∧ (b.length < size → padToSize b size = b ++ List.replicate (size - b.length) 0) := by
  constructor
  · intro h
    simp [padToSize, h]
  · intro h
    have hne : b.length ≠ size := Nat.ne_of_lt h
    have htake : b.take size = b := List.take_of_length_le (Nat.le_of_lt h)
    simp [padToSize, hne, htake]

/-- Witness for C10 at concrete buffers. -/
theorem claim_C10_padToSize_idempotent_witness :
    padToSize [1, 2] 2 = [1, 2] ∧ padToSize [3] 2 = [3, 0] := by
  constructor
  · exact (claim_C10_padToSize_idempotent [1, 2] 2).1 rfl
  · have h := (claim_C10_padToSize_idempotent [3] 2).2 (by norm_num)
    simpa using h

/-- C1: witness assembly derives the issuer root as Poseidon2 over exactly
the two padded public-key coordinates in order, and the nullifier as
Poseidon2 over exactly the padded document number, the event-id field
element (keccak256 mod BN254, as 32 big-endian bytes), and the issuer root,
in that order, for every credential and event identifier. -/
theorem claim_C1_poseidon_inputs (p2 : List Bytes → Bytes)
    (hp2 : ∀ l, isBytes (p2 l) = true)
    (credential : Credential) (options : ProofGenerationOptions) (timestamp : Nat) :
    (buildWitnessInputs p2 credential options timestamp).iaca_root
        = bytesToHex (p2 [padTo32Bytes credential.iacaPubkeyX,
            padTo32Bytes credential.iacaPubkeyY])
    ∧ (buildWitnessInputs p2 credential options timestamp).nullifier
        = bytesToHex (p2 [padTo32Bytes credential.documentNumber,
            natToBytesBE 32 (keccak256 options.eventId % BN254_MODULUS),
            p2 [padTo32Bytes credential.iacaPubkeyX,
                padTo32Bytes credential.iacaPubkeyY]]) := by
  constructor
  · rfl
  · show computeNullifier p2 credential.documentNumber (Prover.hashEventId options.eventId)
        (computeIacaRoot p2 credential.iacaPubkeyX credential.iacaPubkeyY) = _
    rw [computeNullifier, Prover.hashEventId, hexToBytes_fieldHex, computeIacaRoot,
      hexToBytes_bytesToHex (hp2 _)]

/-- Witness for C1 at a concrete hash function and credential. -/
theorem claim_C1_poseidon_inputs_witness :
    (buildWitnessInputs (fun _ => List.replicate 32 0)
        ⟨[], [], [], [], [], [1], [2], [3]⟩ ⟨[97], "0x00", none, none, none⟩ 0).iaca_root
      = bytesToHex (List.replicate 32 0) := by
  have h := (claim_C1_poseidon_inputs (fun _ => List.replicate 32 0)
    (fun _ => by show isBytes (List.replicate 32 0) = true; decide)
    ⟨[], [], [], [], [], [1], [2], [3]⟩
    ⟨[97], "0x00", none, none, none⟩ 0).1
  simpa using h

/-- C4: the session transcript is a function only of the session's origin,
the session's freshness nonce, and the encapsulated-key bytes, and it equals
the CBOR encoding of `[null, null, [format-tag, nonce, encode({origin}),
encode({}), pkEm]]` with exactly those five handover elements in order. -/
theorem claim_C4_sessionTranscript (s₁ s₂ : HPKESession) (pkEm : Bytes)
    (horigin : s₁.origin = s₂.origin) (hnonce : s₁.nonce = s₂.nonce) :
    buildSessionTranscript s₁ pkEm = buildSessionTranscript s₂ pkEm
    ∧ buildSessionTranscript s₁ pkEm = encodeCItem (.arr [.null, .null,
        .arr [.text (asciiBytes "BrowserHandoverv1"), .bytes s₁.nonce,
          .bytes (encodeCItem (.map [(asciiBytes "origin", .text s₁.origin)])),
          .bytes (encodeCItem (.map [])), .bytes pkEm]])
    ∧ ([CItem.text (asciiBytes "BrowserHandoverv1"), .bytes s₁.nonce,
          .bytes (encodeCItem (.map [(asciiBytes "origin", .text s₁.origin)])),
          .bytes (encodeCItem (.map [])), .bytes pkEm]).length = 5 := by
  refine ⟨?_, rfl, rfl⟩
  rw [buildSessionTranscript, buildSessionTranscript, horigin, hnonce]

/-- Witness for C4: sessions differing only in key material give the same
transcript. -/
theorem claim_C4_sessionTranscript_witness :
    buildSessionTranscript ⟨0, [], [1], [2]⟩ [3]
      = buildSessionTranscript ⟨7, [8], [1], [2]⟩ [3] :=
  (claim_C4_sessionTranscript ⟨0, [], [1], [2]⟩ ⟨7, [8], [1], [2]⟩ [3] rfl rfl).1

/-- C2 (amended): with an ideal AEAD, a mismatch in the encapsulated key, the
ciphertext/tag, or the associated data makes `decryptCredentialResponse`
fail with a typed `CredentialError` of code `PARSE_ERROR` — it never returns
altered plaintext.  (The code has no DECRYPTION_FAILED kind; the catch block
rewraps every failure as PARSE_ERROR.) -/
theorem claim_C2_tamper_fails
    (derive : Bytes → Nat → Bytes → Option (Bytes × Bytes))
    (sealF : Bytes → Bytes → Bytes → Bytes → Bytes)
    (openAEAD : Bytes → Bytes → Bytes → Bytes → Option Bytes)
    (hint : ∀ k n a c p, openAEAD k n a c = some p → c = sealF k n a p)
    (hinj : ∀ k₁ n₁ a₁ p₁ k₂ n₂ a₂ p₂, sealF k₁ n₁ a₁ p₁ = sealF k₂ n₂ a₂ p₂ →
        k₁ = k₂ ∧ n₁ = n₂ ∧ a₁ = a₂ ∧ p₁ = p₂)
    (session : HPKESession) (enc0 aad0 pt k0 n0 : Bytes)
    (hk0 : derive enc0 session.privateKey session.publicKeyBytes = some (k0, n0))
    (version originInfoBytes enc ct : Bytes)
    (tamper :
      (enc = enc0 ∧ ct = sealF k0 n0 aad0 pt ∧ aad0 ≠ buildSessionTranscript session enc0)
      ∨ (enc ≠ enc0 ∧ enc.length = enc0.length ∧ ct = sealF k0 n0 aad0 pt
          ∧ aad0 = buildSessionTranscript session enc0)
      ∨ (enc = enc0 ∧ aad0 = buildSessionTranscript session enc0
          ∧ ∀ q, ct ≠ sealF k0 n0 aad0 q)) :
    decryptCredentialResponse derive openAEAD ⟨version, enc, originInfoBytes, ct⟩ session
      = .error ⟨"Failed to decrypt credential response", .PARSE_ERROR⟩ := by
  simp only [decryptCredentialResponse]
  rcases hd : derive enc session.privateKey session.publicKeyBytes with _ | ⟨k, n⟩
  · rfl
  show (match openAEAD k n (buildSessionTranscript session enc) ct with
    | none =>
      Except.error
        { message := "Failed to decrypt credential response"
          code := CredentialErrorCode.PARSE_ERROR }
    | some plaintext => (Except.ok plaintext : Except CredentialError Bytes))
    = Except.error
        { message := "Failed to decrypt credential response"
          code := CredentialErrorCode.PARSE_ERROR }
  rcases ho : openAEAD k n (buildSessionTranscript session enc) ct with _ | p
  · rfl
  exfalso
  have hopen := hint _ _ _ _ _ ho
  rcases tamper with ⟨henc, hct, hne⟩ | ⟨henc, hlen, hct, haad⟩ | ⟨henc, haad, hforge⟩
  · subst henc
    rw [hk0] at hd
    injection hd with hd'
    have hkk : k0 = k := congrArg Prod.fst hd'
    have hnn : n0 = n := congrArg Prod.snd hd'
    subst hkk
    subst hnn
    rw [hct] at hopen
    exact hne (hinj _ _ _ _ _ _ _ _ hopen).2.2.1
  · rw [hct] at hopen
    have hs := (hinj _ _ _ _ _ _ _ _ hopen).2.2.1
    rw [haad] at hs
    exact henc (buildSessionTranscript_pkEm_inj session hlen.symm hs).symm
  · subst henc
    rw [hk0] at hd
    injection hd with hd'
    have hkk : k0 = k := congrArg Prod.fst hd'
    have hnn : n0 = n := congrArg Prod.snd hd'
    subst hkk
    subst hnn
    rw [← haad] at hopen
    exact hforge p hopen

/-- Witness for C2 at a concrete symbolic AEAD: an associated-data mismatch
fails with PARSE_ERROR. -/
theorem claim_C2_tamper_fails_witness :
    decryptCredentialResponse (fun _ _ _ => some ([5], [6])) openConcrete
        ⟨[], [2], [], sealConcrete [5] [6] [9] [7]⟩ ⟨0, [], [1], [111]⟩
      = .error ⟨"Failed to decrypt credential response", .PARSE_ERROR⟩ :=
  claim_C2_tamper_fails (fun _ _ _ => some ([5], [6])) sealConcrete openConcrete
    (fun _ _ _ _ _ h => openConcrete_some h)
    (fun _ _ _ _ _ _ _ _ h => sealConcrete_inj h)
    ⟨0, [], [1], [111]⟩ [2] [9] [7] [5] [6] rfl [] [] [2]
    (sealConcrete [5] [6] [9] [7])
    (Or.inl ⟨rfl, rfl, by decide⟩)

/-- Counterexample for C2 as stated: the decryption failure carries the
code's PARSE_ERROR (spec's PARSE_FAILED), not a DECRYPTION_FAILED kind. -/
theorem claim_C2_counterexample :
    ∃ e : CredentialError,
      decryptCredentialResponse (fun _ _ _ => some ([5], [6])) openConcrete
          ⟨[], [2], [], []⟩ ⟨0, [], [1], [111]⟩ = .error e
      ∧ specKindOf e.code = some SpecErrorKind.PARSE_FAILED
      ∧ specKindOf e.code ≠ some SpecErrorKind.DECRYPTION_FAILED := by
  refine ⟨⟨"Failed to decrypt credential response", .PARSE_ERROR⟩, ?_, rfl, by decide⟩
  rfl

/-- C8 (amended): an `HPKESession` is not consumed by decryption — the
result is a pure function of the document and session, so a second call
with the same session repeats the decryption and succeeds whenever the
first call did, rather than failing with an already-consumed error. -/
theorem claim_C8_no_consumed_guard
    (derive : Bytes → Nat → Bytes → Option (Bytes × Bytes))
    (openAEAD : Bytes → Bytes → Bytes → Bytes → Option Bytes)
    (encrypted : EncryptedCredentialDocument) (session : HPKESession) (pt : Bytes)
    (hfirst : (decryptTwice derive openAEAD encrypted session).1 = .ok pt) :
    (decryptTwice derive openAEAD encrypted session).2 = .ok pt
    ∧ (decryptTwice derive openAEAD encrypted session).2
        = (decryptTwice derive openAEAD encrypted session).1 :=
  ⟨hfirst, rfl⟩

/-- Witness for C8 at a concrete successful decryption. -/
theorem claim_C8_no_consumed_guard_witness :
    (decryptTwice (fun _ _ _ => some ([5], [6])) openConcrete
        ⟨[], [2], [],
          sealConcrete [5] [6] (buildSessionTranscript ⟨0, [], [1], [111]⟩ [2]) [7]⟩
        ⟨0, [], [1], [111]⟩).2 = .ok [7] :=
  (claim_C8_no_consumed_guard (fun _ _ _ => some ([5], [6])) openConcrete
    ⟨[], [2], [], sealConcrete [5] [6] (buildSessionTranscript ⟨0, [], [1], [111]⟩ [2]) [7]⟩
    ⟨0, [], [1], [111]⟩ [7] rfl).1

/-- C6 (amended): the document-number buffer produced by parsing is the
string's bytes left-aligned (set at offset 0) in a 32-byte buffer with zero
padding on the right, and it flows unchanged through `toProverCredential`
and `buildWitnessInputs` into the witness. -/
theorem claim_C6_docNumber_alignment :
    (∀ (decode : Bytes → Option CVal) (strToDate : Bytes → Int)
        (encodeVal : CVal → Bytes) (raw : RawCredentialResponse) (P : ParsedCredential),
      parseCredential decode strToDate encodeVal raw = .ok P →
      ∀ (c : ParsedClaim) (s : Bytes),
        claimsGet P.claims (asciiBytes "document_number") = some c →
        c.value = .text s → s.length ≤ 32 →
        P.documentNumber = s ++ List.replicate (32 - s.length) 0)
    ∧ (∀ P C, toProverCredential P = .ok C → C.documentNumber = P.documentNumber)
    ∧ (∀ (p2 : List Bytes → Bytes) (credential : Credential)
        (options : ProofGenerationOptions) (timestamp : Nat),
        (buildWitnessInputs p2 credential options timestamp).document_number
          = credential.documentNumber) := by
  refine ⟨?_, ?_, ?_⟩
  · intro decode strToDate encodeVal raw P hP c s hc hval hlen
    rw [parseCredential] at hP
    cases hmso : parseMSO decode strToDate encodeVal raw.issuerAuth with
    | error e => rw [hmso] at hP; simp at hP
    | ok mso =>
    rw [hmso] at hP
    cases hns : raw.namespaces with
    | none => rw [hns] at hP; simp at hP
    | some items =>
    rw [hns] at hP
    dsimp only at hP
    cases hdc : claimsGet (buildClaims items) (asciiBytes "document_number") with
    | none => rw [hdc] at hP; simp at hP
    | some docClaim =>
    rw [hdc] at hP
    cases hex : extractIACAPubkey decode raw.issuerAuth with
    | error e => rw [hex] at hP; simp at hP
    | ok pk =>
    rw [hex] at hP
    simp only [Except.ok.injEq] at hP
    subst hP
    simp only at hc
    rw [hdc] at hc
    have hcc : docClaim = c := by
      injection hc
    subst hcc
    show stringToBytes (valueBytes docClaim.value) 32 = _
    rw [hval]
    show stringToBytes s 32 = _
    rw [stringToBytes, List.take_of_length_le hlen]
  · intro P C hC
    rw [toProverCredential] at hC
    cases h21 : claimsGet P.claims (asciiBytes "age_over_21") with
    | none => rw [h21] at hC; simp at hC
    | some a21 =>
    rw [h21] at hC
    cases h18 : claimsGet P.claims (asciiBytes "age_over_18") with
    | none => rw [h18] at hC; simp at hC
    | some a18 =>
    rw [h18] at hC
    cases hst : claimsGet P.claims (asciiBytes "issuing_jurisdiction") with
    | none => rw [hst] at hC; simp at hC
    | some st =>
    rw [hst] at hC
    simp only [Except.ok.injEq] at hC
    subst hC
    rfl
  · intro p2 credential options timestamp
    rfl

/-- Witness for C6 (amended) at the concrete fixture with document number
"AB". -/
theorem claim_C6_docNumber_alignment_witness :
    ∃ P : ParsedCredential,
      parseCredential fixtureDecode (fun _ => 0) (fun _ => []) (fixtureRaw [65, 66]) = .ok P
      ∧ P.documentNumber = [65, 66] ++ List.replicate 30 0 := by
  refine ⟨_, rfl, ?_⟩
  exact claim_C6_docNumber_alignment.1 fixtureDecode (fun _ => 0) (fun _ => [])
    (fixtureRaw [65, 66]) _ rfl _ [65, 66] rfl rfl (by norm_num)

/-- Counterexample for C6 as stated: the witness document-number buffer for
the two-byte string "AB" is left-aligned, not right-aligned. -/
theorem claim_C6_counterexample :
    ∃ (P : ParsedCredential) (C : Credential),
      parseCredential fixtureDecode (fun _ => 0) (fun _ => []) (fixtureRawFull [65, 66]) = .ok P
      ∧ toProverCredential P = .ok C
      ∧ (buildWitnessInputs (fun _ => List.replicate 32 0) C
            ⟨[], "0x00", none, none, none⟩ 0).document_number
          = [65, 66] ++ List.replicate 30 0
      ∧ (buildWitnessInputs (fun _ => List.replicate 32 0) C
            ⟨[], "0x00", none, none, none⟩ 0).document_number
          ≠ List.replicate 30 0 ++ [65, 66] := by
  refine ⟨_, _, rfl, rfl, rfl, by decide⟩

/-- C7: parseCredential performs no validity-window check — a credential
whose MSO lacks `validityInfo` parses successfully with `validUntil` equal
to epoch 0, long in the past at any parse time. -/
theorem claim_C7_expired_parse_succeeds :
    ∃ P : ParsedCredential,
      parseCredential fixtureDecode (fun _ => 0) (fun _ => [])
          (fixtureRaw (asciiBytes "D123")) = .ok P
      ∧ P.mso.validUntil = 0 ∧ P.mso.validFrom = 0 ∧ P.mso.signed = 0 :=
  ⟨_, rfl, rfl, rfl, rfl⟩

/-- Characterisation of the certificate scan: success is exactly the
existence of a `0x41 0x04` marker with two non-zero 32-byte coordinates in
range. -/
theorem extractPubkeyFromCert_iff (certBytes : Bytes) :
    ((∃ x y, extractPubkeyFromCert certBytes = .ok (x, y))
      ↔ ∃ i, 0 < i ∧ i + 65 ≤ certBytes.length
          ∧ certBytes.getD (i - 1) 0 = 0x41 ∧ certBytes.getD i 0 = 0x04
          ∧ isAllZeros (slice certBytes (i + 1) 32) = false
          ∧ isAllZeros (slice certBytes (i + 33) 32) = false)
    ∧ ∀ x y, extractPubkeyFromCert certBytes = .ok (x, y) →
        ∃ i, certMatchAt certBytes i = true
          ∧ x = slice certBytes (i + 1) 32 ∧ y = slice certBytes (i + 33) 32 := by
  have hmatch : ∀ i, certMatchAt certBytes i = true
      ↔ (0 < i ∧ certBytes.getD (i - 1) 0 = 0x41 ∧ certBytes.getD i 0 = 0x04
          ∧ isAllZeros (slice certBytes (i + 1) 32) = false
          ∧ isAllZeros (slice certBytes (i + 33) 32) = false) := by
    intro i
    simp only [certMatchAt, Bool.and_eq_true, beq_iff_eq, decide_eq_true_eq,
      Bool.not_eq_true']
    tauto
  have hpred : ∀ i, (decide (i + 64 < certBytes.length) && certMatchAt certBytes i) = true
      ↔ (i + 64 < certBytes.length ∧ certMatchAt certBytes i = true) := by
    intro i
    simp [Bool.and_eq_true]
  constructor
  · constructor
    · rintro ⟨x, y, hxy⟩
      rw [extractPubkeyFromCert] at hxy
      cases hfind : certScan certBytes with
      | none => rw [hfind] at hxy; simp at hxy
      | some i =>
        rw [certScan] at hfind
        have hfs := List.find?_some hfind
        simp only [Bool.and_eq_true, decide_eq_true_eq] at hfs
        have hm := (hmatch i).1 hfs.2
        exact ⟨i, hm.1, by omega, hm.2.1, hm.2.2.1, hm.2.2.2.1, hm.2.2.2.2⟩
    · rintro ⟨i, hi0, hilen, h41, h04, hx, hy⟩
      rw [extractPubkeyFromCert]
      cases hfind : certScan certBytes with
      | none =>
        exfalso
        rw [certScan] at hfind
        have hnone := List.find?_eq_none.1 hfind i (List.mem_range.2 (by omega))
        exact hnone ((hpred i).2 ⟨by omega, (hmatch i).2 ⟨hi0, h41, h04, hx, hy⟩⟩)
      | some j => exact ⟨_, _, rfl⟩
  · intro x y hxy
    rw [extractPubkeyFromCert] at hxy
    cases hfind : certScan certBytes with
    | none => rw [hfind] at hxy; simp at hxy
    | some i =>
      rw [hfind] at hxy
      simp only [Except.ok.injEq, Prod.mk.injEq] at hxy
      rw [certScan] at hfind
      have hfs := List.find?_some hfind
      simp only [Bool.and_eq_true, decide_eq_true_eq] at hfs
      exact ⟨i, hfs.2, hxy.1.symm, hxy.2.symm⟩

/-- C9: issuer public-key extraction prefers the protected header's
certificate chain (label 33), falls back to the unprotected header only when
the protected one lacks a non-empty chain, and the certificate scan succeeds
exactly when a length byte 0x41 immediately followed by the marker 0x04 and
two non-zero 32-byte coordinates occur in the certificate bytes. -/
theorem claim_C9_pubkey_extraction
    (decode : Bytes → Option CVal) (issuerAuth : Bytes) (coseSign1 : List CVal)
    (hdec : decode issuerAuth = some (.arr coseSign1)) (hlen : 2 ≤ coseSign1.length) :
    (∀ (pb : Bytes) (ph : CVal) (cb : Bytes) (cs : List CVal),
        coseSign1.getD 0 .null = .bytes pb → decode pb = some ph →
        cvalLookup ph (.int 33) = some (.arr (.bytes cb :: cs)) →
        extractIACAPubkey decode issuerAuth = extractPubkeyFromCert cb)
    ∧ (∀ (pb : Bytes) (ph : CVal) (cb : Bytes) (cs : List CVal),
        coseSign1.getD 0 .null = .bytes pb → decode pb = some ph →
        chainMissing (cvalLookup ph (.int 33)) = true →
        cvalLookup (coseSign1.getD 1 .null) (.int 33) = some (.arr (.bytes cb :: cs)) →
        extractIACAPubkey decode issuerAuth = extractPubkeyFromCert cb)
    ∧ (∀ certBytes : Bytes,
        ((∃ x y, extractPubkeyFromCert certBytes = .ok (x, y))
          ↔ ∃ i, 0 < i ∧ i + 65 ≤ certBytes.length
              ∧ certBytes.getD (i - 1) 0 = 0x41 ∧ certBytes.getD i 0 = 0x04
              ∧ isAllZeros (slice certBytes (i + 1) 32) = false
              ∧ isAllZeros (slice certBytes (i + 33) 32) = false)
        ∧ ∀ x y, extractPubkeyFromCert certBytes = .ok (x, y) →
            ∃ i, certMatchAt certBytes i = true
              ∧ x = slice certBytes (i + 1) 32 ∧ y = slice certBytes (i + 33) 32) := by
  refine ⟨?_, ?_, fun certBytes => extractPubkeyFromCert_iff certBytes⟩
  · intro pb ph cb cs hpb hph hchain
    rw [extractIACAPubkey, hdec]
    dsimp only
    rw [if_neg (by omega), hpb]
    dsimp only
    rw [hph]
    dsimp only
    rw [hchain]
    rw [if_neg (show ¬ chainMissing (some (.arr (.bytes cb :: cs))) = true by
      simp [chainMissing])]
  · intro pb ph cb cs hpb hph hmiss hchain
    rw [extractIACAPubkey, hdec]
    dsimp only
    rw [if_neg (by omega), hpb]
    dsimp only
    rw [hph]
    dsimp only
    rw [if_pos hmiss]
    rw [hchain]

/-- Witness for C9 at the concrete fixture COSE structure: the chain is
taken from the protected header. -/
theorem claim_C9_pubkey_extraction_witness :
    extractIACAPubkey fixtureDecode [0] = extractPubkeyFromCert fixtureCert :=
  (claim_C9_pubkey_extraction fixtureDecode [0]
      [.bytes [1], .map [], .bytes [2], .bytes (List.replicate 64 9)] rfl
      (by norm_num)).1
    [1] fixtureProtectedHeader fixtureCert [] rfl rfl rfl

/-- Variant of `natToHex_inj` at the digit-list level. -/
theorem natToHexCore_inj {k n₁ n₂ : Nat} (h₁ : n₁ < 16 ^ k) (h₂ : n₂ < 16 ^ k)
    (h : natToHexCore k n₁ = natToHexCore k n₂) : n₁ = n₂ := by
  have := congrArg fromHexDigits h
  rwa [fromHexDigits_natToHexCore, fromHexDigits_natToHexCore,
    Nat.mod_eq_of_lt h₁, Nat.mod_eq_of_lt h₂] at this

/-- The exported and prover-internal `hashEventId` agree exactly on inputs
whose keccak digest is below the BN254 modulus. -/
theorem hashEventId_agree_iff (eventId : Bytes) :
    Contract.hashEventId eventId = Prover.hashEventId eventId
      ↔ keccak256 eventId < BN254_MODULUS := by
  constructor
  · intro h
    have hdata := congrArg String.data h
    rw [Contract.hashEventId, Prover.hashEventId, fieldHex,
      data_0x_append, data_0x_append] at hdata
    simp only [List.cons.injEq] at hdata
    have hcore : natToHexCore 64 (keccak256 eventId)
        = natToHexCore 64 (keccak256 eventId % BN254_MODULUS) := hdata.2.2
    have hp0 : 0 < BN254_MODULUS := by decide
    have hlt2 : keccak256 eventId % BN254_MODULUS < 16 ^ 64 :=
      lt_trans (Nat.mod_lt _ hp0) (show BN254_MODULUS < 16 ^ 64 by decide)
    have heq := natToHexCore_inj (keccak256_lt eventId) hlt2 hcore
    have := Nat.mod_lt (keccak256 eventId) hp0
    omega
  · intro h
    rw [Contract.hashEventId, Prover.hashEventId, fieldHex, Nat.mod_eq_of_lt h]

/-- C5 (amended): the event-id field element in the witness is keccak256 of
the event-id string reduced mod the BN254 modulus; the exported
`hashEventId` skips the reduction, so the two functions agree exactly on
strings whose keccak digest is below the modulus. -/
theorem claim_C5_hashEventId :
    (∀ (p2 : List Bytes → Bytes) (credential : Credential)
        (options : ProofGenerationOptions) (timestamp : Nat),
      (buildWitnessInputs p2 credential options timestamp).event_id
          = fieldHex (keccak256 options.eventId % BN254_MODULUS)
      ∧ hexStrToNat ((buildWitnessInputs p2 credential options timestamp).event_id)
          = keccak256 options.eventId % BN254_MODULUS)
    ∧ ∀ eventId : Bytes,
        Contract.hashEventId eventId = Prover.hashEventId eventId
          ↔ keccak256 eventId < BN254_MODULUS := by
  constructor
  · intro p2 credential options timestamp
    constructor
    · rfl
    · show hexStrToNat (fieldHex (keccak256 options.eventId % BN254_MODULUS)) = _
      apply hexStrToNat_fieldHex
      have hp0 : 0 < BN254_MODULUS := by decide
      exact lt_trans (Nat.mod_lt _ hp0) (show BN254_MODULUS < 16 ^ 64 by decide)
  · exact hashEventId_agree_iff

set_option maxRecDepth 1000000 in
/-- Counterexample for C5 as stated: on the event-id string "a" (UTF-8
`[97]`), whose keccak digest exceeds the BN254 modulus, the exported
`hashEventId` differs from the prover-internal one. -/
theorem claim_C5_counterexample :
    Contract.hashEventId [97] ≠ Prover.hashEventId [97] := by
  intro h
  have hge : BN254_MODULUS ≤ keccak256 [97] := by decide
  exact absurd ((hashEventId_agree_iff [97]).1 h) (by omega)

set_option maxRecDepth 1000000 in
/-- Witness for C5: on the event-id string "c" (UTF-8 `[99]`), whose keccak
digest is below the modulus, the two functions agree. -/
theorem claim_C5_hashEventId_witness :
    Contract.hashEventId [99] = Prover.hashEventId [99] :=
  (claim_C5_hashEventId.2 [99]).2 (by decide)

/-- C3: nullifier derivation is deterministic in its three inputs; and when
the hash is collision-free, distinct event-id field elements (same document
and root) or distinct 32-byte document numbers (same event and root) give
distinct nullifiers. -/
theorem claim_C3_nullifier_props (p2 : List Bytes → Bytes)
    (hinj : Function.Injective p2) (hp2 : ∀ l, isBytes (p2 l) = true) :
    (∀ d₁ e₁ r₁ d₂ e₂ r₂, d₁ = d₂ → e₁ = e₂ → r₁ = r₂ →
        computeNullifier p2 d₁ e₁ r₁ = computeNullifier p2 d₂ e₂ r₂)
    ∧ (∀ (doc : Bytes) (root : String) (ev₁ ev₂ : Nat),
        ev₁ < BN254_MODULUS → ev₂ < BN254_MODULUS → ev₁ ≠ ev₂ →
        computeNullifier p2 doc (fieldHex ev₁) root
          ≠ computeNullifier p2 doc (fieldHex ev₂) root)
    ∧ (∀ (eventId root : String) (d₁ d₂ : Bytes),
        d₁.length = 32 → d₂.length = 32 → d₁ ≠ d₂ →
        computeNullifier p2 d₁ eventId root ≠ computeNullifier p2 d₂ eventId root) := by
  refine ⟨?_, ?_, ?_⟩
  · intro d₁ e₁ r₁ d₂ e₂ r₂ hd he hr
    rw [hd, he, hr]
  · intro doc root ev₁ ev₂ h₁ h₂ hne heq
    rw [computeNullifier, computeNullifier] at heq
    have hargs := hinj (bytesToHex_inj (hp2 _) (hp2 _) heq)
    simp only [List.cons.injEq] at hargs
    have hev := hargs.2.1
    rw [hexToBytes_fieldHex, hexToBytes_fieldHex] at hev
    have hple : BN254_MODULUS ≤ 256 ^ 32 := by decide
    exact hne (natToBytesBE_inj (lt_of_lt_of_le h₁ hple) (lt_of_lt_of_le h₂ hple) hev)
  · intro eventId root d₁ d₂ hl₁ hl₂ hne heq
    rw [computeNullifier, computeNullifier] at heq
    have hargs := hinj (bytesToHex_inj (hp2 _) (hp2 _) heq)
    simp only [List.cons.injEq] at hargs
    have hpad := hargs.1
    have e₁ : padTo32Bytes d₁ = d₁ := by
      rw [padTo32Bytes, if_pos (le_of_eq hl₁.symm), ← hl₁]
      exact List.take_length d₁
    have e₂ : padTo32Bytes d₂ = d₂ := by
      rw [padTo32Bytes, if_pos (le_of_eq hl₂.symm), ← hl₂]
      exact List.take_length d₂
    rw [e₁, e₂] at hpad
    exact hne hpad

/-- Witness for C3 at the concrete injective hash and concrete field
elements. -/
theorem claim_C3_nullifier_props_witness :
    computeNullifier p2Concrete (List.replicate 32 0) (fieldHex 0) ""
      ≠ computeNullifier p2Concrete (List.replicate 32 0) (fieldHex 1) "" :=
  (claim_C3_nullifier_props p2Concrete p2Concrete_injective p2Concrete_isBytes).2.1
    (List.replicate 32 0) "" 0 1 (by decide) (by decide) (by decide)

/-- Counterexample for C8 as stated: the second decrypt call with the same
session succeeds and returns the plaintext again instead of failing with an
already-consumed error. -/
theorem claim_C8_counterexample :
    (decryptTwice (fun _ _ _ => some ([5], [6])) openConcrete
        ⟨[], [2], [],
          sealConcrete [5] [6] (buildSessionTranscript ⟨0, [], [1], [111]⟩ [2]) [7]⟩
        ⟨0, [], [1], [111]⟩).1 = .ok [7]
    ∧ (decryptTwice (fun _ _ _ => some ([5], [6])) openConcrete
        ⟨[], [2], [],
          sealConcrete [5] [6] (buildSessionTranscript ⟨0, [], [1], [111]⟩ [2]) [7]⟩
        ⟨0, [], [1], [111]⟩).2 = .ok [7] := by
  constructor <;> rfl

end Thurin







